import Mathlib

/-!
Verification development for `src/utils/data.py` of the WiSAR repository.

The Python module is shallowly embedded: numpy arrays become nested lists
(rows × cols × channels), 8-bit pixel values become `Nat`, the float64 mosaic
canvas becomes `ℚ` (every value arising in the computation is an integer or an
integer divided by 10, and for those the float64 computation agrees with exact
rational arithmetic up to the final truncation), and fallible operations
(file reads, dictionary lookups, numpy shape errors) return `Option`.

numpy arrays are rectangular; nested lists are not forced to be, so
rectangularity (`Rect2`, `Rect3`) appears as a hypothesis where a theorem
needs it.  An empty numpy array still carries a shape such as (0, 5); the
list model conflates all empty shapes, which is harmless here because every
image the claims speak about is non-empty.

`cv2.warpPerspective` (an external native routine interpolating under a
projective transform) is not modelled; it enters `integrate` as an explicit
function parameter `warp`, and theorems constrain it only through its
documented shape contract (output size is the requested `dsize`).
-/

namespace WiSAR

/-! ## Definitions: the embedded data model and operations -/

/-- A decoded image: rows × cols × channels of 8-bit values (as `Nat`). -/
abbrev Img : Type := List (List (List Nat))

/-- A two-dimensional boolean array (a mask). -/
abbrev BMask : Type := List (List Bool)

/-- The float64 mosaic canvas, modelled over `ℚ`. -/
abbrev QImg : Type := List (List (List ℚ))

/-- A homography: 3×3 matrix of JSON numbers. -/
abbrev Hom : Type := List (List ℚ)

/-- `a.shape` for a 2-D array (`a.shape[:2]` for a 3-D one). -/
def shape2 {α : Type} (a : List (List α)) : Nat × Nat :=
  (a.length, (a.head?.getD []).length)

/-- `a.shape` for a 3-D array. -/
def shape3 {α : Type} (a : List (List (List α))) : Nat × Nat × Nat :=
  (a.length, (a.head?.getD []).length, ((a.head?.getD []).head?.getD []).length)

/-- The nested list is a rectangular `h × w` array. -/
def Rect2 {α : Type} (a : List (List α)) (h w : Nat) : Prop :=
  a.length = h ∧ ∀ r ∈ a, r.length = w

/-- The nested list is a rectangular `h × w × c` array. -/
def Rect3 {α : Type} (a : List (List (List α))) (h w c : Nat) : Prop :=
  a.length = h ∧ ∀ r ∈ a, r.length = w ∧ ∀ p ∈ r, p.length = c

instance {α : Type} [DecidableEq α] (a : List (List α)) (h w : Nat) :
    Decidable (Rect2 a h w) := by unfold Rect2; infer_instance

instance {α : Type} [DecidableEq α] (a : List (List (List α))) (h w c : Nat) :
    Decidable (Rect3 a h w c) := by unfold Rect3; infer_instance

/-- Element read `a[i][j]` with a default outside the array. -/
def get2 {α : Type} (d : α) (a : List (List α)) (i j : Nat) : α :=
  (a.getD i []).getD j d

/-- Element read `a[i][j][k]` with a default outside the array. -/
def get3 {α : Type} (d : α) (a : List (List (List α))) (i j k : Nat) : α :=
  ((a.getD i []).getD j []).getD k d

/-- Build a rectangular 2-D array from an index function. -/
def build2 {α : Type} (h w : Nat) (f : Nat → Nat → α) : List (List α) :=
  (List.range h).map (fun i => (List.range w).map (fun j => f i j))

/-- Build a rectangular 3-D array from an index function. -/
def build3 {α : Type} (h w c : Nat) (f : Nat → Nat → Nat → α) :
    List (List (List α)) :=
  (List.range h).map (fun i =>
    (List.range w).map (fun j =>
      (List.range c).map (fun k => f i j k)))

/-! ### The numpy operations used by `data.py` -/

/-- `~m` for a boolean array: elementwise negation. -/
def invertB (m : BMask) : BMask := m.map (fun r => r.map (fun b => !b))

/-- `np.sum(a, axis=-1) > 0`: per-pixel truth of a positive channel sum. -/
def sumPos (a : Img) : BMask :=
  a.map (fun r => r.map (fun p => decide (0 < p.sum)))

/-- `a[m] = z` for a 2-D boolean mask `m` indexing a 3-D array `a`: writes `z`
into every channel of every pixel where the mask is true.  numpy requires the
mask's shape to equal the array's first two dimensions and raises an
`IndexError` otherwise (`none`). -/
def maskAssign {α : Type} (z : α) (a : List (List (List α))) (m : BMask) :
    Option (List (List (List α))) :=
  if shape2 m = ((shape3 a).1, (shape3 a).2.1) then
    some (build3 (shape3 a).1 (shape3 a).2.1 (shape3 a).2.2
      (fun i j k => if get2 false m i j then z else get3 z a i j k))
  else none

/-- Broadcast of two dimension sizes: equal sizes broadcast to themselves and
size 1 broadcasts to the other size; anything else is a numpy error. -/
def bdim (m n : Nat) : Option Nat :=
  if m = n then some m else if m = 1 then some n else if n = 1 then some m else none

/-- Reading index `i` of a dimension of size `n` after broadcast. -/
def bidx (n i : Nat) : Nat := if n = 1 then 0 else i

/-- `np.where(cond, a, False)` for 2-D boolean arrays, with numpy
broadcasting of the two array operands (the scalar `False` broadcasts to
everything). -/
def npWhere (cond a : BMask) : Option BMask :=
  match bdim (shape2 cond).1 (shape2 a).1, bdim (shape2 cond).2 (shape2 a).2 with
  | some hh, some ww =>
      some (build2 hh ww (fun i j =>
        if get2 false cond (bidx (shape2 cond).1 i) (bidx (shape2 cond).2 j)
        then get2 false a (bidx (shape2 a).1 i) (bidx (shape2 a).2 j)
        else false))
  | _, _ => none

/-- `a += b` for a float 3-D array `a` and a uint8 3-D array `b`: the addend
is broadcast to the canvas's shape (each of its dimensions must equal the
canvas's or be 1); numpy raises otherwise (`none`). -/
def addInto (a : QImg) (b : Img) : Option QImg :=
  if ((shape3 b).1 = (shape3 a).1 ∨ (shape3 b).1 = 1)
      ∧ ((shape3 b).2.1 = (shape3 a).2.1 ∨ (shape3 b).2.1 = 1)
      ∧ ((shape3 b).2.2 = (shape3 a).2.2 ∨ (shape3 b).2.2 = 1) then
    some (build3 (shape3 a).1 (shape3 a).2.1 (shape3 a).2.2
      (fun i j k => get3 0 a i j k
        + ((get3 0 b (bidx (shape3 b).1 i) (bidx (shape3 b).2.1 j)
            (bidx (shape3 b).2.2 k) : Nat) : ℚ)))
  else none

/-- `np.zeros((h, w, c))`. -/
def zeros3 (h w c : Nat) : QImg := build3 h w c (fun _ _ _ => 0)

/-- `a /= d` for a float 3-D array: elementwise division. -/
def divAll (a : QImg) (d : ℚ) : QImg :=
  a.map (fun r => r.map (fun p => p.map (fun q => q / d)))

/-- `np.uint8(a)` for a float 3-D array: C-style cast, truncating toward zero
and reducing modulo 256.  Every value reaching this cast in `integrate` is
non-negative, so truncation toward zero is the floor. -/
def toUint8 (a : QImg) : Img :=
  a.map (fun r => r.map (fun p => p.map (fun q => (⌊q⌋).toNat % 256)))

/-- The effect of a Python `for` loop that builds a list and aborts on the
first exception: `Option`-valued map over a list. -/
def mapO {α β : Type} (f : α → Option β) : List α → Option (List β)
  | [] => some []
  | a :: l => do
    let b ← f a
    let bs ← mapO f l
    pure (b :: bs)

/-! ### The data model of `data.py` -/

/-- The fixed perspective order of `data.py`. -/
def _photo_order : List String :=
  ["B05", "B04", "B03", "B02", "B01", "G01", "G02", "G03", "G04", "G05"]

/-- The files of one sample directory, as far as `data.py` consumes them:
decoded images by file name, the parsed `homographies.json` dictionary when
that file exists, and the parsed `labels.json` when that file exists. -/
structure SampleDir where
  imageFile : String → Option Img
  homographiesJson : Option (String → Option Hom)
  labelsJson : Option (List (List Int))

/-- The in-memory result of `MultiViewTemporalSample.__init__`:
`photos` is (timestep 0..6) × (perspective 0..9) images, `homographies` the
matching matrices, `mask` the mask passed in, and `labels` the parsed
`labels.json` (present only when the mode was `"validation"`). -/
structure MultiViewTemporalSample where
  photos : List (List Img)
  homographies : List (List Hom)
  mask : Option BMask
  labels : Option (List (List Int))
deriving DecidableEq

/-- `if self.mask is not None: photo[mask] = 0` — the conditional mask
application of the loader. -/
def maybeMask (mask : Option BMask) (photo : Img) : Option Img :=
  match mask with
  | some m => maskAssign 0 photo m
  | none => pure photo

/-- One iteration of the inner loop of `MultiViewTemporalSample.__init__`:
open `<name>.png`, look the homography up under key `<name>`, and, when a
mask was supplied, zero the masked pixels (`photo[mask] = 0`). -/
def photoStep (dir : SampleDir) (hdict : String → Option Hom)
    (mask : Option BMask) (name : String) : Option (Img × Hom) := do
  let photo ← dir.imageFile (name ++ ".png")
  let homography ← hdict name
  let photo ← maybeMask mask photo
  pure (photo, homography)

/-- The body of the outer (timestep) loop of
`MultiViewTemporalSample.__init__`: run `photoStep` over the ten
perspectives in `_photo_order` and collect the photo row and homography
row of this timestep. -/
def timestepStep (dir : SampleDir) (hdict : String → Option Hom)
    (mask : Option BMask) (timestep : Nat) : Option (List Img × List Hom) := do
  let pairs ← mapO (fun perspective =>
    photoStep dir hdict mask (toString timestep ++ "-" ++ perspective))
    _photo_order
  pure (pairs.map Prod.fst, pairs.map Prod.snd)

/-- `MultiViewTemporalSample.__init__`: parse `homographies.json`, then for
each timestep 0..6 and each perspective in `_photo_order` load the image and
its homography, and finally, in validation mode, parse `labels.json`.  Any
missing file or missing dictionary key raises in Python; here the whole load
returns `none`. -/
def loadSample (dir : SampleDir) (mode : String) (mask : Option BMask) :
    Option MultiViewTemporalSample := do
  let homography_dict ← dir.homographiesJson
  let rows ← mapO (timestepStep dir homography_dict mask) (List.range 7)
  let s : MultiViewTemporalSample :=
    { photos := rows.map Prod.fst
      homographies := rows.map Prod.snd
      mask := mask
      labels := none }
  if mode = "validation" then
    let lbls ← dir.labelsJson
    pure { s with labels := some lbls }
  else
    pure s

/-- `MultiViewTemporalSample.integrate`.  `warp` stands for
`cv2.warpPerspective`, called as in the source on the photo, its homography
and `photo.shape[:2]`; the canvas is `np.zeros((1024, 1024, 3))`; the
running validity mask starts from `~self.mask` (an `AttributeError`, hence
`none`, when no mask was stored) and is narrowed through
`np.where(np.sum(warped, axis=-1) > 0, ov_mask, False)`; warped images are
accumulated with `+=`; finally pixels outside the validity mask are zeroed,
everything is divided by 10 and cast with `np.uint8`. -/
def integrate (warp : Img → Hom → Nat × Nat → Img)
    (s : MultiViewTemporalSample) (timestep : Nat) : Option Img := do
  let m ← s.mask
  let tphotos ← s.photos.get? timestep
  let thoms ← s.homographies.get? timestep
  let res ← (tphotos.zip thoms).foldlM (fun acc ph => do
    let warped := warp ph.1 ph.2 (shape2 ph.1)
    let ov ← npWhere (sumPos warped) acc.1
    let canvas ← addInto acc.2 warped
    pure (ov, canvas)) ((invertB m, zeros3 1024 1024 3) : BMask × QImg)
  let canvas ← maskAssign (0 : ℚ) res.2 (invertB res.1)
  pure (toUint8 (divAll canvas 10))

/-- `os.path.join` for the paths `data.py` builds (POSIX form). -/
def pathJoin (a b : String) : String := a ++ "/" ++ b

/-- `str.lower()`: character-wise lower-casing of the mode string
(`String.toLower` unfolded over the character list). -/
def lower (s : String) : String := String.mk (s.data.map Char.toLower)

/-- The filesystem as `ImageDataset.__init__` sees it: `Image.open` of a
boolean mask image, `os.listdir`, `os.path.isdir`, and the sample directory
rooted at a path. -/
structure FS where
  boolImage : String → Option BMask
  listdir : String → List String
  isdir : String → Bool
  dirAt : String → SampleDir

/-- The state an `ImageDataset` holds after construction. -/
structure ImageDataset where
  path : String
  samples : List MultiViewTemporalSample
deriving DecidableEq

/-- `ImageDataset.__init__`: lower-case the mode, assert it is one of the
three recognized values, and, when masking is on, read the mask image from
the constant path `os.path.join("data", "mask.png")` (note: not relative to
`data_path`) and invert it; then load one sample per subdirectory of
`<data_path>/<mode>`, passing every sample the same mask. -/
def ImageDataset.init (fs : FS) (data_path : String) (mode : String)
    (apply_mask : Bool) : Option ImageDataset := do
  let mode := lower mode
  if mode ∈ ["train", "test", "validation"] then
    let path := pathJoin data_path mode
    let mask ← if apply_mask then
        (fs.boolImage (pathJoin "data" "mask.png")).map (fun m => some (invertB m))
      else
        pure none
    let samples ← mapO
      (fun s => loadSample (fs.dirAt (pathJoin path s)) mode mask)
      ((fs.listdir path).filter (fun s => fs.isdir (pathJoin path s)))
    pure { path := path, samples := samples }
  else
    none

/-- `ImageDataset.__len__`. -/
def ImageDataset.len (d : ImageDataset) : Nat := d.samples.length

/-- `ImageDataset.__getitem__` (out-of-range indexing raises: `none`). -/
def ImageDataset.getitem (d : ImageDataset) (index : Nat) :
    Option MultiViewTemporalSample := d.samples.get? index

/-! ### Concrete fixtures for witnesses -/

/-- An identity homography. -/
def hom3 : Hom := [[1, 0, 0], [0, 1, 0], [0, 0, 1]]

/-- A 1×1 RGB image. -/
def img113 : Img := [[[5, 6, 7]]]

/-- A sample directory holding a 1×1 image under every name, a homography
dictionary answering every key, and labels. -/
def dirW : SampleDir :=
  { imageFile := fun _ => some img113
    homographiesJson := some (fun _ => some hom3)
    labelsJson := some [[0, 0, 2, 2]] }

/-- A sample directory whose `homographies.json` is missing. -/
def dirNoHomW : SampleDir :=
  { imageFile := fun _ => some img113
    homographiesJson := none
    labelsJson := none }

/-- The sample loaded from `dirW` without a mask. -/
def sampleW : MultiViewTemporalSample :=
  (loadSample dirW "train" none).getD ⟨[], [], none, none⟩

/-! ### Characterization of `integrate` -/

/-- The body of the perspective loop of `integrate`, applied to one already
warped image: narrow the validity mask, accumulate the canvas. -/
def mosaicStep (acc : BMask × QImg) (warped : Img) : Option (BMask × QImg) := do
  let ov ← npWhere (sumPos warped) acc.1
  let canvas ← addInto acc.2 warped
  pure (ov, canvas)

/-! ### Fixtures and witnesses for the `integrate` claims -/

/-- An all-false 1024×1024 mask. -/
def maskW : BMask := List.replicate 1024 (List.replicate 1024 false)

/-- A constant 1024×1024×3 warped image. -/
def wImgW : Img := List.replicate 1024 (List.replicate 1024 [7, 7, 7])

/-- A warp returning the constant 1024×1024×3 image. -/
def warpW : Img → Hom → Nat × Nat → Img := fun _ _ _ => wImgW

/-- The identity warp; on a 2×2 photo it returns a 2×2 image, exactly the
shape `cv2.warpPerspective` produces for `dsize = photo.shape[:2]`. -/
def warpId : Img → Hom → Nat × Nat → Img := fun photo _ _ => photo

/-- A sample with a 1024×1024 mask. -/
def sampleBig : MultiViewTemporalSample :=
  { photos := List.replicate 7 (List.replicate 10 img113)
    homographies := List.replicate 7 (List.replicate 10 hom3)
    mask := some maskW
    labels := none }

/-- A 2×2 RGB photo. -/
def photo22 : Img := [[[1, 1, 1], [2, 2, 2]], [[3, 3, 3], [4, 4, 4]]]

/-- A 2×2 mask matching `photo22`. -/
def mask22 : BMask := [[false, false], [false, false]]

/-- A sample directory of 2×2 photos. -/
def dir22 : SampleDir :=
  { imageFile := fun _ => some photo22
    homographiesJson := some (fun _ => some hom3)
    labelsJson := none }

/-- The sample loaded from `dir22` with the 2×2 mask. -/
def sample22 : MultiViewTemporalSample :=
  (loadSample dir22 "train" (some mask22)).getD ⟨[], [], none, none⟩

/-- A sample without a mask. -/
def sampleNoMask : MultiViewTemporalSample :=
  { photos := [], homographies := [], mask := none, labels := none }

/-- A mask zeroing the diagonal of a 2×2 image. -/
def maskDiag : BMask := [[true, false], [false, true]]

/-- The result of masking `photo22` with `maskDiag`. -/
def photo22Masked : Img := (maskAssign 0 photo22 maskDiag).getD []

/-- An empty filesystem: no files, no directories. -/
def fsTriv : FS :=
  { boolImage := fun _ => none
    listdir := fun _ => []
    isdir := fun _ => false
    dirAt := fun _ => dirNoHomW }

/-- A filesystem whose mask image sits at `d2/mask.png` only. -/
def fsMaskElsewhere : FS :=
  { boolImage := fun p => if p = "d2/mask.png" then some [[true]] else none
    listdir := fun _ => []
    isdir := fun _ => false
    dirAt := fun _ => dirNoHomW }

/-- A filesystem whose mask image sits at the constant `data/mask.png`. -/
def fsMaskAtData : FS :=
  { boolImage := fun p => if p = "data/mask.png" then some [[true]] else none
    listdir := fun _ => []
    isdir := fun _ => false
    dirAt := fun _ => dirNoHomW }

/-- A filesystem with one sample directory `a` and one stray file under
`data/train`. -/
def fsW8 : FS :=
  { boolImage := fun _ => none
    listdir := fun p => if p = "data/train" then ["a", "notes.txt"] else []
    isdir := fun p => p = "data/train/a"
    dirAt := fun _ => dirW }

/-- The dataset built over `fsW8`. -/
def dW8 : ImageDataset :=
  (ImageDataset.init fsW8 "data" "train" false).getD ⟨"", []⟩

/-! ## Theorems -/

theorem get2_build2 {α : Type} (d : α) (h w : Nat) (f : Nat → Nat → α)
    {i j : Nat} (hi : i < h) (hj : j < w) :
    get2 d (build2 h w f) i j = f i j := by
  simp [get2, build2, List.getD_eq_getElem?_getD, List.getElem?_map,
    List.getElem?_range, hi, hj]

theorem get3_build3 {α : Type} (d : α) (h w c : Nat) (f : Nat → Nat → Nat → α)
    {i j k : Nat} (hi : i < h) (hj : j < w) (hk : k < c) :
    get3 d (build3 h w c f) i j k = f i j k := by
  simp [get3, build3, List.getD_eq_getElem?_getD, List.getElem?_map,
    List.getElem?_range, hi, hj, hk]

theorem rect2_build2 {α : Type} (h w : Nat) (f : Nat → Nat → α) :
    Rect2 (build2 h w f) h w := by
  constructor
  · simp [build2]
  · intro r hr
    simp only [build2, List.mem_map, List.mem_range] at hr
    obtain ⟨i, _, rfl⟩ := hr
    simp

theorem rect3_build3 {α : Type} (h w c : Nat) (f : Nat → Nat → Nat → α) :
    Rect3 (build3 h w c f) h w c := by
  refine ⟨by simp [build3], ?_⟩
  intro r hr
  simp only [build3, List.mem_map, List.mem_range] at hr
  obtain ⟨i, _, rfl⟩ := hr
  refine ⟨by simp, ?_⟩
  intro p hp
  simp only [List.mem_map, List.mem_range] at hp
  obtain ⟨j, _, rfl⟩ := hp
  simp

theorem build2_congr {α : Type} {h w : Nat} {f g : Nat → Nat → α}
    (hfg : ∀ i j, i < h → j < w → f i j = g i j) :
    build2 h w f = build2 h w g := by
  unfold build2
  refine List.map_congr_left ?_
  intro i hi
  rw [List.mem_range] at hi
  refine List.map_congr_left ?_
  intro j hj
  rw [List.mem_range] at hj
  exact hfg i j hi hj

theorem build3_congr {α : Type} {h w c : Nat} {f g : Nat → Nat → Nat → α}
    (hfg : ∀ i j k, i < h → j < w → k < c → f i j k = g i j k) :
    build3 h w c f = build3 h w c g := by
  unfold build3
  refine List.map_congr_left ?_
  intro i hi
  rw [List.mem_range] at hi
  refine List.map_congr_left ?_
  intro j hj
  rw [List.mem_range] at hj
  refine List.map_congr_left ?_
  intro k hk
  rw [List.mem_range] at hk
  exact hfg i j k hi hj hk

theorem shape2_of_rect2 {α : Type} {a : List (List α)} {h w : Nat}
    (hr : Rect2 a h w) (hh : 0 < h) : shape2 a = (h, w) := by
  obtain ⟨hl, hrow⟩ := hr
  unfold shape2
  cases a with
  | nil => simp at hl; omega
  | cons r t =>
    simp only [List.head?_cons, Option.getD_some]
    exact Prod.ext hl (hrow r (List.mem_cons_self r t))

theorem shape3_of_rect3 {α : Type} {a : List (List (List α))} {h w c : Nat}
    (hr : Rect3 a h w c) (hh : 0 < h) (hw : 0 < w) : shape3 a = (h, w, c) := by
  obtain ⟨hl, hrow⟩ := hr
  unfold shape3
  cases a with
  | nil => simp at hl; omega
  | cons r t =>
    obtain ⟨hrl, hpix⟩ := hrow r (List.mem_cons_self r t)
    simp only [List.head?_cons, Option.getD_some]
    cases r with
    | nil => simp at hrl; omega
    | cons p t2 =>
      simp only [List.head?_cons, Option.getD_some]
      exact Prod.ext hl (Prod.ext hrl (hpix p (List.mem_cons_self p t2)))

theorem rect2_of_rect3 {α : Type} {a : List (List (List α))} {h w c : Nat}
    (hr : Rect3 a h w c) : Rect2 a h w :=
  ⟨hr.1, fun r hrm => (hr.2 r hrm).1⟩

theorem get2_mapmap {α β : Type} (f : α → β) {m : List (List α)} {h w : Nat}
    (hr : Rect2 m h w) {i j : Nat} (hi : i < h) (hj : j < w) (dα : α) (dβ : β) :
    get2 dβ (m.map (fun r => r.map f)) i j = f (get2 dα m i j) := by
  obtain ⟨hl, hrow⟩ := hr
  have hi' : i < m.length := by omega
  have hj' : j < m[i].length := by
    rw [hrow m[i] (List.getElem_mem hi')]; exact hj
  simp [get2, List.getD_eq_getElem?_getD, List.getElem?_map,
    List.getElem?_eq_getElem hi', List.getElem?_eq_getElem hj']

theorem get3_mapmapmap {α β : Type} (f : α → β) {a : List (List (List α))}
    {h w c : Nat} (hr : Rect3 a h w c) {i j k : Nat}
    (hi : i < h) (hj : j < w) (hk : k < c) (dα : α) (dβ : β) :
    get3 dβ (a.map (fun r => r.map (fun p => p.map f))) i j k
      = f (get3 dα a i j k) := by
  have hl := hr.1
  have hi' : i < a.length := by omega
  have hrm := hr.2 a[i] (List.getElem_mem hi')
  have hj' : j < a[i].length := by rw [hrm.1]; exact hj
  have hk' : k < a[i][j].length := by
    rw [hrm.2 _ (List.getElem_mem hj')]; exact hk
  simp [get3, List.getD_eq_getElem?_getD, List.getElem?_map,
    List.getElem?_eq_getElem hi', List.getElem?_eq_getElem hj',
    List.getElem?_eq_getElem hk']

theorem bidx_of_lt {n i : Nat} (h : i < n) : bidx n i = i := by
  unfold bidx
  split
  · omega
  · rfl

/-! ### Characterizations of the operations on rectangular inputs -/

theorem get2_invertB {m : BMask} {h w : Nat} (hr : Rect2 m h w)
    {i j : Nat} (hi : i < h) (hj : j < w) :
    get2 false (invertB m) i j = !(get2 false m i j) :=
  get2_mapmap (fun b => !b) hr hi hj false false

theorem rect2_invertB {m : BMask} {h w : Nat} (hr : Rect2 m h w) :
    Rect2 (invertB m) h w := by
  refine ⟨by simp [invertB, hr.1], ?_⟩
  intro r hrm
  simp only [invertB, List.mem_map] at hrm
  obtain ⟨r0, hr0, rfl⟩ := hrm
  simp [hr.2 r0 hr0]

theorem get2_sumPos {a : Img} {h w c : Nat} (hr : Rect3 a h w c)
    {i j : Nat} (hi : i < h) (hj : j < w) :
    get2 false (sumPos a) i j
      = decide (0 < (get2 ([] : List Nat) a i j).sum) :=
  get2_mapmap (fun (p : List Nat) => decide (0 < p.sum))
    (rect2_of_rect3 hr) hi hj [] false

theorem rect2_sumPos {a : Img} {h w c : Nat} (hr : Rect3 a h w c) :
    Rect2 (sumPos a) h w := by
  refine ⟨by simp [sumPos, hr.1], ?_⟩
  intro r hrm
  simp only [sumPos, List.mem_map] at hrm
  obtain ⟨r0, hr0, rfl⟩ := hrm
  simp [(hr.2 r0 hr0).1]

theorem maskAssign_eq_some {α : Type} (z : α) {a : List (List (List α))}
    {m : BMask} {h w c : Nat} (ha : Rect3 a h w c) (hm : Rect2 m h w)
    (hh : 0 < h) (hw : 0 < w) :
    maskAssign z a m = some (build3 h w c
      (fun i j k => if get2 false m i j then z else get3 z a i j k)) := by
  rw [maskAssign, shape3_of_rect3 ha hh hw, shape2_of_rect2 hm hh]
  simp

theorem npWhere_eq_some {cond a : BMask} {h w : Nat}
    (hc : Rect2 cond h w) (ha : Rect2 a h w) (hh : 0 < h) (hw : 0 < w) :
    npWhere cond a = some (build2 h w
      (fun i j => if get2 false cond i j then get2 false a i j else false)) := by
  rw [npWhere, shape2_of_rect2 hc hh, shape2_of_rect2 ha hh]
  simp only [bdim, if_pos rfl]
  refine congrArg some (build2_congr ?_)
  intro i j hi hj
  rw [bidx_of_lt hi, bidx_of_lt hj]

theorem addInto_eq_some {a : QImg} {b : Img} {h w c : Nat}
    (ha : Rect3 a h w c) (hb : Rect3 b h w c) (hh : 0 < h) (hw : 0 < w) :
    addInto a b = some (build3 h w c
      (fun i j k => get3 0 a i j k + ((get3 0 b i j k : Nat) : ℚ))) := by
  rw [addInto, shape3_of_rect3 ha hh hw, shape3_of_rect3 hb hh hw]
  dsimp only
  rw [if_pos (⟨Or.inl rfl, Or.inl rfl, Or.inl rfl⟩ :
    (h = h ∨ h = 1) ∧ (w = w ∨ w = 1) ∧ (c = c ∨ c = 1))]
  refine congrArg some (build3_congr ?_)
  intro i j k hi hj hk
  rw [bidx_of_lt hi, bidx_of_lt hj, bidx_of_lt hk]

theorem rect3_zeros3 (h w c : Nat) : Rect3 (zeros3 h w c) h w c :=
  rect3_build3 h w c _

theorem get3_zeros3 {h w c i j k : Nat} (hi : i < h) (hj : j < w) (hk : k < c) :
    get3 0 (zeros3 h w c) i j k = 0 :=
  get3_build3 0 h w c _ hi hj hk

theorem rect3_mapmapmap {α β : Type} (f : α → β) {a : List (List (List α))}
    {h w c : Nat} (hr : Rect3 a h w c) :
    Rect3 (a.map (fun r => r.map (fun p => p.map f))) h w c := by
  refine ⟨by simp [hr.1], ?_⟩
  intro r hrm
  simp only [List.mem_map] at hrm
  obtain ⟨r0, hr0, rfl⟩ := hrm
  refine ⟨by simp [(hr.2 r0 hr0).1], ?_⟩
  intro p hp
  simp only [List.mem_map] at hp
  obtain ⟨p0, hp0, rfl⟩ := hp
  simp [(hr.2 r0 hr0).2 p0 hp0]

theorem get3_divAll {a : QImg} {d : ℚ} {h w c : Nat} (hr : Rect3 a h w c)
    {i j k : Nat} (hi : i < h) (hj : j < w) (hk : k < c) :
    get3 0 (divAll a d) i j k = get3 0 a i j k / d :=
  get3_mapmapmap (fun q => q / d) hr hi hj hk 0 0

theorem get3_toUint8 {a : QImg} {h w c : Nat} (hr : Rect3 a h w c)
    {i j k : Nat} (hi : i < h) (hj : j < w) (hk : k < c) :
    get3 0 (toUint8 a) i j k = (⌊get3 0 a i j k⌋).toNat % 256 :=
  get3_mapmapmap (fun q => (⌊q⌋).toNat % 256) hr hi hj hk 0 0

theorem mapO_nil {α β : Type} (f : α → Option β) : mapO f [] = some [] := rfl

theorem mapO_cons {α β : Type} (f : α → Option β) (a : α) (l : List α) :
    mapO f (a :: l) = (f a).bind (fun b => (mapO f l).map (fun bs => b :: bs)) := by
  cases h : f a with
  | none => simp [mapO, h, Option.bind]
  | some b =>
    cases h2 : mapO f l with
    | none => simp [mapO, h, h2, Option.bind]
    | some bs => simp [mapO, h, h2, Option.bind]

/-- A successful `mapO` has the length of its input and acts pointwise. -/
theorem mapO_char {α β : Type} (f : α → Option β) :
    ∀ {l : List α} {ys : List β}, mapO f l = some ys →
      ys.length = l.length
        ∧ ∀ i a, l.get? i = some a → ∃ b, f a = some b ∧ ys.get? i = some b := by
  intro l
  induction l with
  | nil =>
    intro ys hy
    rw [mapO_nil] at hy
    cases hy
    exact ⟨rfl, by intro i a ha; simp at ha⟩
  | cons x xs ih =>
    intro ys hy
    rw [mapO_cons] at hy
    cases hfx : f x with
    | none => rw [hfx] at hy; simp at hy
    | some b =>
      rw [hfx] at hy
      cases htl : mapO f xs with
      | none => rw [htl] at hy; simp at hy
      | some bs =>
        rw [htl] at hy
        have hy2 : b :: bs = ys := Option.some.inj hy
        subst hy2
        obtain ⟨hlen, hpt⟩ := ih htl
        refine ⟨by simp [hlen], ?_⟩
        intro i a ha
        cases i with
        | zero =>
          simp at ha
          subst ha
          exact ⟨b, hfx, rfl⟩
        | succ n =>
          simp only [List.get?_cons_succ] at ha ⊢
          exact hpt n a ha

/-- `mapO` succeeds when `f` succeeds on every element. -/
theorem mapO_some_of_forall {α β : Type} (f : α → Option β) :
    ∀ {l : List α}, (∀ a ∈ l, ∃ b, f a = some b) →
      ∃ ys, mapO f l = some ys := by
  intro l
  induction l with
  | nil => intro _; exact ⟨[], rfl⟩
  | cons x xs ih =>
    intro hall
    obtain ⟨b, hb⟩ := hall x (List.mem_cons_self x xs)
    obtain ⟨bs, hbs⟩ := ih (fun a ha => hall a (List.mem_cons_of_mem x ha))
    exact ⟨b :: bs, by rw [mapO_cons, hb, hbs]; rfl⟩

/-- `mapO` fails as soon as `f` fails on any element. -/
theorem mapO_none_of_mem {α β : Type} (f : α → Option β) {l : List α} {a : α}
    (ha : a ∈ l) (hfa : f a = none) : mapO f l = none := by
  induction l with
  | nil => simp at ha
  | cons x xs ih =>
    rw [mapO_cons]
    rcases List.mem_cons.mp ha with h | h
    · subst h; rw [hfa]; rfl
    · cases hfx : f x with
      | none => rfl
      | some b => rw [ih h]; rfl

/-- Every element of a successful `mapO` image comes from an element of the
input. -/
theorem mapO_mem {α β : Type} (f : α → Option β) :
    ∀ {l : List α} {ys : List β}, mapO f l = some ys →
      ∀ b ∈ ys, ∃ a ∈ l, f a = some b := by
  intro l
  induction l with
  | nil =>
    intro ys hy
    rw [mapO_nil] at hy
    cases hy
    intro b hb
    simp at hb
  | cons x xs ih =>
    intro ys hy
    rw [mapO_cons] at hy
    cases hfx : f x with
    | none => rw [hfx] at hy; simp at hy
    | some b0 =>
      rw [hfx] at hy
      cases htl : mapO f xs with
      | none => rw [htl] at hy; simp at hy
      | some bs =>
        rw [htl] at hy
        have hy2 : b0 :: bs = ys := Option.some.inj hy
        subst hy2
        intro b hb
        rcases List.mem_cons.mp hb with h | h
        · subst h; exact ⟨x, List.mem_cons_self x xs, hfx⟩
        · obtain ⟨a, hal, hfa⟩ := ih htl b h
          exact ⟨a, List.mem_cons_of_mem x hal, hfa⟩

theorem foldlM_option_nil {σ α : Type} (f : σ → α → Option σ) (b : σ) :
    List.foldlM f b [] = some b := rfl

theorem foldlM_option_cons {σ α : Type} (f : σ → α → Option σ) (b : σ)
    (a : α) (l : List α) :
    List.foldlM f b (a :: l) = (f b a).bind (fun b2 => List.foldlM f b2 l) := rfl

/-! ### Characterizations of the loader -/

theorem photoStep_eq (dir : SampleDir) (hdict : String → Option Hom)
    (mask : Option BMask) (name : String) :
    photoStep dir hdict mask name
      = (dir.imageFile (name ++ ".png")).bind (fun photo =>
          (hdict name).bind (fun homography =>
            (maybeMask mask photo).bind (fun photo2 =>
              some (photo2, homography)))) := rfl

theorem timestepStep_eq (dir : SampleDir) (hdict : String → Option Hom)
    (mask : Option BMask) (timestep : Nat) :
    timestepStep dir hdict mask timestep
      = (mapO (fun perspective =>
          photoStep dir hdict mask (toString timestep ++ "-" ++ perspective))
          _photo_order).bind (fun pairs =>
          some (pairs.map Prod.fst, pairs.map Prod.snd)) := rfl

theorem loadSample_eq (dir : SampleDir) (mode : String) (mask : Option BMask) :
    loadSample dir mode mask
      = dir.homographiesJson.bind (fun hdict =>
          (mapO (timestepStep dir hdict mask) (List.range 7)).bind (fun rows =>
            if mode = "validation" then
              dir.labelsJson.bind (fun lbls =>
                some { photos := rows.map Prod.fst
                       homographies := rows.map Prod.snd
                       mask := mask
                       labels := some lbls })
            else
              some { photos := rows.map Prod.fst
                     homographies := rows.map Prod.snd
                     mask := mask
                     labels := none })) := rfl

theorem maybeMask_none_eq (photo : Img) : maybeMask none photo = some photo := rfl

theorem maybeMask_some_eq {m : BMask} {photo : Img} {h w c : Nat}
    (hph : Rect3 photo h w c) (hm : Rect2 m h w) (hh : 0 < h) (hw : 0 < w) :
    maybeMask (some m) photo = some (build3 h w c
      (fun i j k => if get2 false m i j then 0 else get3 0 photo i j k)) :=
  maskAssign_eq_some 0 hph hm hh hw

/-- A fully successful `photoStep` on rectangular inputs. -/
theorem photoStep_rect {dir : SampleDir} {hdict : String → Option Hom}
    {mask : Option BMask} {name : String} {H W C : Nat}
    (hH : 0 < H) (hW : 0 < W)
    (himg : ∃ img, dir.imageFile (name ++ ".png") = some img ∧ Rect3 img H W C)
    (hkey : ∃ hm, hdict name = some hm ∧ Rect2 hm 3 3)
    (hmask : mask = none ∨ ∃ m, mask = some m ∧ Rect2 m H W) :
    ∃ pr, photoStep dir hdict mask name = some pr
      ∧ Rect3 pr.1 H W C ∧ Rect2 pr.2 3 3 := by
  obtain ⟨img, h1, hr1⟩ := himg
  obtain ⟨hm, h2, hr2⟩ := hkey
  rcases hmask with rfl | ⟨m, rfl, hrm⟩
  · exact ⟨(img, hm), by simp [photoStep_eq, h1, h2, maybeMask_none_eq], hr1, hr2⟩
  · refine ⟨(build3 H W C
        (fun i j k => if get2 false m i j then 0 else get3 0 img i j k), hm),
      ?_, rect3_build3 H W C _, hr2⟩
    simp [photoStep_eq, h1, h2, maybeMask_some_eq hr1 hrm hH hW]

/-- `photoStep` fails when the image file is missing. -/
theorem photoStep_none_of_noimg {dir : SampleDir} {hdict : String → Option Hom}
    (mask : Option BMask) {name : String}
    (h1 : dir.imageFile (name ++ ".png") = none) :
    photoStep dir hdict mask name = none := by
  simp [photoStep_eq, h1]

/-- `photoStep` fails when the homography dictionary lacks the key. -/
theorem photoStep_none_of_nokey {dir : SampleDir} {hdict : String → Option Hom}
    (mask : Option BMask) {name : String} (h2 : hdict name = none) :
    photoStep dir hdict mask name = none := by
  cases h1 : dir.imageFile (name ++ ".png") with
  | none => simp [photoStep_eq, h1]
  | some img => simp [photoStep_eq, h1, h2]

/-- A fully successful `timestepStep` on rectangular inputs: ten photos and
ten homographies, all rectangular. -/
theorem timestepStep_rect {dir : SampleDir} {hdict : String → Option Hom}
    {mask : Option BMask} {H W C : Nat} (hH : 0 < H) (hW : 0 < W) (t : Nat)
    (himg : ∀ p ∈ _photo_order, ∃ img,
      dir.imageFile (toString t ++ "-" ++ p ++ ".png") = some img
        ∧ Rect3 img H W C)
    (hkey : ∀ p ∈ _photo_order, ∃ hm,
      hdict (toString t ++ "-" ++ p) = some hm ∧ Rect2 hm 3 3)
    (hmask : mask = none ∨ ∃ m, mask = some m ∧ Rect2 m H W) :
    ∃ pr, timestepStep dir hdict mask t = some pr
      ∧ pr.1.length = 10 ∧ (∀ img ∈ pr.1, Rect3 img H W C)
      ∧ pr.2.length = 10 ∧ (∀ hm ∈ pr.2, Rect2 hm 3 3) := by
  have hall : ∀ p ∈ _photo_order,
      ∃ b, photoStep dir hdict mask (toString t ++ "-" ++ p) = some b :=
    fun p hp => ((photoStep_rect hH hW (himg p hp) (hkey p hp) hmask).imp
      (fun b hb => hb.1))
  obtain ⟨pairs, hpairs⟩ := mapO_some_of_forall _ hall
  have hlen := (mapO_char _ hpairs).1
  have hmem := mapO_mem _ hpairs
  have hrect : ∀ pr ∈ pairs, Rect3 pr.1 H W C ∧ Rect2 pr.2 3 3 := by
    intro pr hpr
    obtain ⟨p, hp, hstep⟩ := hmem pr hpr
    obtain ⟨pr2, hstep2, h3, h4⟩ := photoStep_rect hH hW (himg p hp) (hkey p hp) hmask
    rw [hstep2] at hstep
    cases Option.some.inj hstep
    exact ⟨h3, h4⟩
  have hord : _photo_order.length = 10 := rfl
  refine ⟨(pairs.map Prod.fst, pairs.map Prod.snd),
    by simp [timestepStep_eq, hpairs], by simp [hlen, hord], ?_,
    by simp [hlen, hord], ?_⟩
  · intro img himg2
    obtain ⟨pr, hpr, rfl⟩ := List.mem_map.mp himg2
    exact (hrect pr hpr).1
  · intro hm hhm
    obtain ⟨pr, hpr, rfl⟩ := List.mem_map.mp hhm
    exact (hrect pr hpr).2

/-- C3 underlying result, used via `loadSample_eq`: the labels branch keeps
the photo and homography rows unchanged. -/
theorem loadSample_rect {dir : SampleDir} {mode : String} {mask : Option BMask}
    {hdict : String → Option Hom} {H W C : Nat} (hH : 0 < H) (hW : 0 < W)
    (hhd : dir.homographiesJson = some hdict)
    (himg : ∀ t, t < 7 → ∀ p ∈ _photo_order, ∃ img,
      dir.imageFile (toString t ++ "-" ++ p ++ ".png") = some img
        ∧ Rect3 img H W C)
    (hkey : ∀ t, t < 7 → ∀ p ∈ _photo_order, ∃ hm,
      hdict (toString t ++ "-" ++ p) = some hm ∧ Rect2 hm 3 3)
    (hmask : mask = none ∨ ∃ m, mask = some m ∧ Rect2 m H W)
    (hlab : mode = "validation" → ∃ lbls, dir.labelsJson = some lbls) :
    ∃ s, loadSample dir mode mask = some s
      ∧ s.photos.length = 7
      ∧ (∀ row ∈ s.photos, row.length = 10 ∧ ∀ img ∈ row, Rect3 img H W C)
      ∧ s.homographies.length = 7
      ∧ (∀ row ∈ s.homographies, row.length = 10 ∧ ∀ hm ∈ row, Rect2 hm 3 3)
      ∧ s.mask = mask
      ∧ (s.labels.isSome = true ↔ mode = "validation") := by
  have hall : ∀ t ∈ List.range 7, ∃ pr, timestepStep dir hdict mask t = some pr :=
    fun t ht => ((timestepStep_rect hH hW t (himg t (List.mem_range.mp ht))
      (hkey t (List.mem_range.mp ht)) hmask).imp (fun pr hpr => hpr.1))
  obtain ⟨rows, hrows⟩ := mapO_some_of_forall _ hall
  have hlen := (mapO_char _ hrows).1
  have hmem := mapO_mem _ hrows
  have hrowlen : rows.length = 7 := by simpa using hlen
  have hrect : ∀ pr ∈ rows,
      (pr.1.length = 10 ∧ ∀ img ∈ pr.1, Rect3 img H W C)
        ∧ (pr.2.length = 10 ∧ ∀ hm ∈ pr.2, Rect2 hm 3 3) := by
    intro pr hpr
    obtain ⟨t, ht, hstep⟩ := hmem pr hpr
    obtain ⟨pr2, hstep2, h3, h4, h5, h6⟩ := timestepStep_rect hH hW t
      (himg t (List.mem_range.mp ht)) (hkey t (List.mem_range.mp ht)) hmask
    rw [hstep2] at hstep
    cases Option.some.inj hstep
    exact ⟨⟨h3, h4⟩, ⟨h5, h6⟩⟩
  have hphotos : ∀ row ∈ rows.map Prod.fst,
      row.length = 10 ∧ ∀ img ∈ row, Rect3 img H W C := by
    intro row hrow
    obtain ⟨pr, hpr, rfl⟩ := List.mem_map.mp hrow
    exact (hrect pr hpr).1
  have hhoms : ∀ row ∈ rows.map Prod.snd,
      row.length = 10 ∧ ∀ hm ∈ row, Rect2 hm 3 3 := by
    intro row hrow
    obtain ⟨pr, hpr, rfl⟩ := List.mem_map.mp hrow
    exact (hrect pr hpr).2
  by_cases hv : mode = "validation"
  · obtain ⟨lbls, hlbls⟩ := hlab hv
    refine ⟨{ photos := rows.map Prod.fst, homographies := rows.map Prod.snd,
              mask := mask, labels := some lbls },
      ?_, ?_, hphotos, ?_, hhoms, rfl, ?_⟩
    · rw [loadSample_eq, hhd]
      simp [hrows, hv, hlbls]
    · simp [hrowlen]
    · simp [hrowlen]
    · simp [hv]
  · refine ⟨{ photos := rows.map Prod.fst, homographies := rows.map Prod.snd,
              mask := mask, labels := none },
      ?_, ?_, hphotos, ?_, hhoms, rfl, ?_⟩
    · rw [loadSample_eq, hhd]
      simp [hrows, hv]
    · simp [hrowlen]
    · simp [hrowlen]
    · simp [hv]

theorem loadSample_eq2 {dir : SampleDir} {hdict : String → Option Hom}
    (hhd : dir.homographiesJson = some hdict) (mode : String)
    (mask : Option BMask) :
    loadSample dir mode mask
      = (mapO (timestepStep dir hdict mask) (List.range 7)).bind (fun rows =>
          if mode = "validation" then
            dir.labelsJson.bind (fun lbls =>
              some { photos := rows.map Prod.fst
                     homographies := rows.map Prod.snd
                     mask := mask
                     labels := some lbls })
          else
            some { photos := rows.map Prod.fst
                   homographies := rows.map Prod.snd
                   mask := mask
                   labels := none }) := by
  rw [loadSample_eq, hhd]
  rfl

theorem loadSample_none_of_nodict {dir : SampleDir} (mode : String)
    (mask : Option BMask) (hhd : dir.homographiesJson = none) :
    loadSample dir mode mask = none := by
  rw [loadSample_eq, hhd]
  rfl

/-- Whatever the labels branch does, a successfully loaded sample's photo
rows, homography rows and mask are the collected loop results. -/
theorem loadSample_fields {dir : SampleDir} {hdict : String → Option Hom}
    {mode : String} {mask : Option BMask}
    {rows : List (List Img × List Hom)} {s : MultiViewTemporalSample}
    (hhd : dir.homographiesJson = some hdict)
    (hrows : mapO (timestepStep dir hdict mask) (List.range 7) = some rows)
    (hs : loadSample dir mode mask = some s) :
    s.photos = rows.map Prod.fst ∧ s.homographies = rows.map Prod.snd
      ∧ s.mask = mask := by
  rw [loadSample_eq2 hhd, hrows, Option.some_bind] at hs
  by_cases hv : mode = "validation"
  · rw [if_pos hv] at hs
    cases hlb : dir.labelsJson with
    | none => rw [hlb, Option.none_bind] at hs; cases hs
    | some lbls =>
      rw [hlb, Option.some_bind] at hs
      cases Option.some.inj hs
      exact ⟨rfl, rfl, rfl⟩
  · rw [if_neg hv] at hs
    cases Option.some.inj hs
    exact ⟨rfl, rfl, rfl⟩

theorem timestepStep_none_of_mem {dir : SampleDir} {hdict : String → Option Hom}
    {mask : Option BMask} {t : Nat}
    (h : ∃ p ∈ _photo_order,
      photoStep dir hdict mask (toString t ++ "-" ++ p) = none) :
    timestepStep dir hdict mask t = none := by
  obtain ⟨p, hp, hnone⟩ := h
  rw [timestepStep_eq, mapO_none_of_mem _ hp hnone, Option.none_bind]

theorem timestepStep_inv {dir : SampleDir} {hdict : String → Option Hom}
    {mask : Option BMask} {t : Nat} {pr : List Img × List Hom}
    (h : timestepStep dir hdict mask t = some pr) :
    ∃ pairs, mapO (fun perspective =>
        photoStep dir hdict mask (toString t ++ "-" ++ perspective))
        _photo_order = some pairs
      ∧ pr = (pairs.map Prod.fst, pairs.map Prod.snd) := by
  rw [timestepStep_eq] at h
  cases hpairs : mapO (fun perspective =>
      photoStep dir hdict mask (toString t ++ "-" ++ perspective))
      _photo_order with
  | none => rw [hpairs, Option.none_bind] at h; cases h
  | some pairs =>
    rw [hpairs, Option.some_bind] at h
    exact ⟨pairs, rfl, (Option.some.inj h).symm⟩

theorem photoStep_inv {dir : SampleDir} {hdict : String → Option Hom}
    {mask : Option BMask} {name : String} {pr : Img × Hom}
    (h : photoStep dir hdict mask name = some pr) :
    ∃ img homog, dir.imageFile (name ++ ".png") = some img
      ∧ hdict name = some homog
      ∧ maybeMask mask img = some pr.1 ∧ pr.2 = homog := by
  rw [photoStep_eq] at h
  cases h1 : dir.imageFile (name ++ ".png") with
  | none => rw [h1, Option.none_bind] at h; cases h
  | some img =>
    rw [h1, Option.some_bind] at h
    cases h2 : hdict name with
    | none => rw [h2, Option.none_bind] at h; cases h
    | some homog =>
      rw [h2, Option.some_bind] at h
      cases h3 : maybeMask mask img with
      | none => rw [h3, Option.none_bind] at h; cases h
      | some ph2 =>
        rw [h3, Option.some_bind] at h
        cases Option.some.inj h
        exact ⟨img, homog, rfl, rfl, h3, rfl⟩

/-! ### Claim theorems on the sample loader -/

/-- C3: for every well-formed sample directory (all 70 images present and
uniformly `H × W × C`, all consumed homography keys present as 3×3 matrices,
a compatible or absent mask, and `labels.json` present if the mode is
validation), the loader produces `photos` of shape (7, 10, H, W, C) and
`homographies` of shape (7, 10, 3, 3), and the sample has labels if and
only if the mode is `"validation"`. -/
theorem loadSample_wellformed_shapes {dir : SampleDir} {mode : String}
    {mask : Option BMask} {hdict : String → Option Hom} {H W C : Nat}
    (hH : 0 < H) (hW : 0 < W)
    (hhd : dir.homographiesJson = some hdict)
    (himg : ∀ t, t < 7 → ∀ p ∈ _photo_order, ∃ img,
      dir.imageFile (toString t ++ "-" ++ p ++ ".png") = some img
        ∧ Rect3 img H W C)
    (hkey : ∀ t, t < 7 → ∀ p ∈ _photo_order, ∃ hm,
      hdict (toString t ++ "-" ++ p) = some hm ∧ Rect2 hm 3 3)
    (hmask : mask = none ∨ ∃ m, mask = some m ∧ Rect2 m H W)
    (hlab : mode = "validation" → ∃ lbls, dir.labelsJson = some lbls) :
    ∃ s, loadSample dir mode mask = some s
      ∧ s.photos.length = 7
      ∧ (∀ row ∈ s.photos, row.length = 10 ∧ ∀ img ∈ row, Rect3 img H W C)
      ∧ s.homographies.length = 7
      ∧ (∀ row ∈ s.homographies, row.length = 10 ∧ ∀ hm ∈ row, Rect2 hm 3 3)
      ∧ s.mask = mask
      ∧ (s.labels.isSome = true ↔ mode = "validation") :=
  loadSample_rect hH hW hhd himg hkey hmask hlab

/-- C5: sample loading is all-or-nothing.  If any of the 70 image files is
missing, or `homographies.json` is missing, or the homography dictionary
lacks a consumed `<t>-<perspective>` key, or (in validation mode)
`labels.json` is missing, the whole load fails. -/
theorem loadSample_all_or_nothing {dir : SampleDir} (mode : String)
    (mask : Option BMask)
    (h : (∃ t, t < 7 ∧ ∃ p ∈ _photo_order,
            dir.imageFile (toString t ++ "-" ++ p ++ ".png") = none)
      ∨ dir.homographiesJson = none
      ∨ (∃ hdict, dir.homographiesJson = some hdict ∧ ∃ t, t < 7
          ∧ ∃ p ∈ _photo_order, hdict (toString t ++ "-" ++ p) = none)
      ∨ (mode = "validation" ∧ dir.labelsJson = none)) :
    loadSample dir mode mask = none := by
  rcases h with ⟨t, ht, p, hp, hnoimg⟩ | hnodict | ⟨hdict, hhd, t, ht, p, hp, hnokey⟩
    | ⟨hv, hnolab⟩
  · cases hhd : dir.homographiesJson with
    | none => exact loadSample_none_of_nodict mode mask hhd
    | some hdict =>
      have hts : timestepStep dir hdict mask t = none :=
        timestepStep_none_of_mem ⟨p, hp, photoStep_none_of_noimg mask hnoimg⟩
      rw [loadSample_eq2 hhd,
        mapO_none_of_mem _ (List.mem_range.mpr ht) hts, Option.none_bind]
  · exact loadSample_none_of_nodict mode mask hnodict
  · have hts : timestepStep dir hdict mask t = none :=
      timestepStep_none_of_mem ⟨p, hp, photoStep_none_of_nokey mask hnokey⟩
    rw [loadSample_eq2 hhd,
      mapO_none_of_mem _ (List.mem_range.mpr ht) hts, Option.none_bind]
  · cases hhd : dir.homographiesJson with
    | none => exact loadSample_none_of_nodict mode mask hhd
    | some hdict =>
      rw [loadSample_eq2 hhd]
      cases hrows : mapO (timestepStep dir hdict mask) (List.range 7) with
      | none => rw [Option.none_bind]
      | some rows => rw [Option.some_bind, if_pos hv, hnolab, Option.none_bind]

/-- C9: in every loaded sample the perspective axis follows `_photo_order`,
so at every timestep `t < 7` the row has length 10, its entry at index `p`
is the (mask-adjusted) image decoded from `<t>-<_photo_order[p]>.png`, and
in particular index 4 is the image from `<t>-B01.png`. -/
theorem loadSample_perspective_order {dir : SampleDir} {mode : String}
    {mask : Option BMask} {s : MultiViewTemporalSample}
    (hs : loadSample dir mode mask = some s) {t : Nat} (ht : t < 7) :
    _photo_order.getD 4 "" = "B01"
    ∧ ∃ row, s.photos.get? t = some row ∧ row.length = 10
      ∧ ∀ p, p < 10 → ∃ img,
          dir.imageFile (toString t ++ "-" ++ _photo_order.getD p "" ++ ".png")
            = some img
          ∧ row.get? p = maybeMask mask img := by
  refine ⟨rfl, ?_⟩
  cases hhd : dir.homographiesJson with
  | none => rw [loadSample_none_of_nodict mode mask hhd] at hs; cases hs
  | some hdict =>
  cases hrows : mapO (timestepStep dir hdict mask) (List.range 7) with
  | none => rw [loadSample_eq2 hhd, hrows, Option.none_bind] at hs; cases hs
  | some rows =>
  obtain ⟨hphotos, _, _⟩ := loadSample_fields hhd hrows hs
  have hchar := mapO_char _ hrows
  have hrt : (List.range 7).get? t = some t := by
    rw [List.get?_eq_getElem?]
    simp [List.getElem?_range, ht]
  obtain ⟨pr, hpr_step, hpr_get⟩ := hchar.2 t t hrt
  obtain ⟨pairs, hpairs, hpr⟩ := timestepStep_inv hpr_step
  subst hpr
  have hpchar := mapO_char _ hpairs
  have hplen : pairs.length = 10 := hpchar.1
  refine ⟨pairs.map Prod.fst, ?_, by simp [hplen], ?_⟩
  · rw [hphotos]
    rw [List.get?_eq_getElem?] at hpr_get ⊢
    simp [List.getElem?_map, hpr_get]
  · intro p hp
    have hop : _photo_order.get? p = some (_photo_order.getD p "") := by
      interval_cases p <;> rfl
    obtain ⟨pairp, hstep, hget⟩ := hpchar.2 p _ hop
    obtain ⟨img, homog, himg2, hkey2, hmm, hsnd⟩ := photoStep_inv hstep
    refine ⟨img, himg2, ?_⟩
    rw [List.get?_eq_getElem?] at hget ⊢
    simp [List.getElem?_map, hget]
    exact hmm.symm

theorem loadSample_wellformed_shapes_witness :
    ((0 < 1)
    ∧ dirW.homographiesJson = some (fun _ => some hom3)
    ∧ (∀ t, t < 7 → ∀ p ∈ _photo_order, ∃ img,
        dirW.imageFile (toString t ++ "-" ++ p ++ ".png") = some img
          ∧ Rect3 img 1 1 3)
    ∧ (∀ t, t < 7 → ∀ p ∈ _photo_order, ∃ hm,
        (fun _ => some hom3) (toString t ++ "-" ++ p) = some hm ∧ Rect2 hm 3 3)
    ∧ ((none : Option BMask) = none
        ∨ ∃ m, (none : Option BMask) = some m ∧ Rect2 m 1 1)
    ∧ ("validation" = "validation" → ∃ lbls, dirW.labelsJson = some lbls))
    ∧ (∃ s, loadSample dirW "validation" none = some s
        ∧ s.photos.length = 7
        ∧ (∀ row ∈ s.photos, row.length = 10 ∧ ∀ img ∈ row, Rect3 img 1 1 3)
        ∧ s.homographies.length = 7
        ∧ (∀ row ∈ s.homographies, row.length = 10 ∧ ∀ hm ∈ row, Rect2 hm 3 3)
        ∧ s.mask = none
        ∧ (s.labels.isSome = true ↔ "validation" = "validation")) :=
  ⟨⟨Nat.one_pos, rfl,
    fun _t _ht p _hp => ⟨img113, rfl, by decide⟩,
    fun _t _ht p _hp => ⟨hom3, rfl, by decide⟩,
    Or.inl rfl,
    fun _ => ⟨[[0, 0, 2, 2]], rfl⟩⟩,
   loadSample_wellformed_shapes Nat.one_pos Nat.one_pos rfl
    (fun _t _ht p _hp => ⟨img113, rfl, by decide⟩)
    (fun _t _ht p _hp => ⟨hom3, rfl, by decide⟩)
    (Or.inl rfl)
    (fun _ => ⟨[[0, 0, 2, 2]], rfl⟩)⟩

theorem loadSample_all_or_nothing_witness :
    dirNoHomW.homographiesJson = none
    ∧ loadSample dirNoHomW "train" none = none :=
  ⟨rfl, loadSample_all_or_nothing "train" none (Or.inr (Or.inl rfl))⟩

theorem loadSample_perspective_order_witness :
    (loadSample dirW "train" none = some sampleW ∧ 0 < 7)
    ∧ (_photo_order.getD 4 "" = "B01"
      ∧ ∃ row, sampleW.photos.get? 0 = some row ∧ row.length = 10
        ∧ ∀ p, p < 10 → ∃ img,
            dirW.imageFile
              (toString 0 ++ "-" ++ _photo_order.getD p "" ++ ".png") = some img
            ∧ row.get? p = maybeMask none img) :=
  ⟨⟨rfl, by decide⟩,
   @loadSample_perspective_order dirW "train" none sampleW rfl 0 (by decide)⟩

theorem integrate_eq (warp : Img → Hom → Nat × Nat → Img)
    (s : MultiViewTemporalSample) (timestep : Nat) :
    integrate warp s timestep
      = s.mask.bind (fun m =>
          (s.photos.get? timestep).bind (fun tphotos =>
            (s.homographies.get? timestep).bind (fun thoms =>
              (List.foldlM
                  (fun acc ph => mosaicStep acc (warp ph.1 ph.2 (shape2 ph.1)))
                  ((invertB m, zeros3 1024 1024 3) : BMask × QImg)
                  (tphotos.zip thoms)).bind (fun res =>
                (maskAssign 0 res.2 (invertB res.1)).bind (fun canvas =>
                  some (toUint8 (divAll canvas 10))))))) := rfl

theorem foldlM_option_map {σ α β : Type} (g : σ → β → Option σ) (h : α → β) :
    ∀ (l : List α) (b : σ),
      List.foldlM g b (l.map h)
        = List.foldlM (fun acc a => g acc (h a)) b l := by
  intro l
  induction l with
  | nil => intro b; rfl
  | cons a l2 ih =>
    intro b
    rw [List.map_cons, foldlM_option_cons, foldlM_option_cons]
    cases g b (h a) with
    | none => rfl
    | some b2 => rw [Option.some_bind, Option.some_bind, ih b2]

theorem toNat_floor_div_nat (n d : Nat) :
    (⌊((n : ℚ)) / (d : ℚ)⌋).toNat = n / d := by
  rw [Int.floor_toNat, Nat.floor_div_nat, Nat.floor_natCast]

/-- Folding `mosaicStep` over a list of rectangular warped images succeeds
and has the expected pointwise description: the validity mask keeps a pixel
exactly when it was valid initially and every warped image has positive
channel sum there; the canvas accumulates the channel values. -/
theorem mosaic_fold_char {H W : Nat} (hH : 0 < H) (hW : 0 < W) :
    ∀ (ws : List Img) (ov : BMask) (cv : QImg),
      Rect2 ov H W → Rect3 cv H W 3 → (∀ w2 ∈ ws, Rect3 w2 H W 3) →
      ∃ ov2 cv2, List.foldlM mosaicStep (ov, cv) ws = some (ov2, cv2)
        ∧ Rect2 ov2 H W ∧ Rect3 cv2 H W 3
        ∧ (∀ i j, i < H → j < W →
            get2 false ov2 i j
              = (get2 false ov i j
                  && ws.all (fun w2 => decide (0 < (get2 [] w2 i j).sum))))
        ∧ (∀ i j k, i < H → j < W → k < 3 →
            get3 0 cv2 i j k
              = get3 0 cv i j k
                + (((ws.map (fun w2 => get3 0 w2 i j k)).sum : Nat) : ℚ)) := by
  intro ws
  induction ws with
  | nil =>
    intro ov cv hov hcv _
    exact ⟨ov, cv, rfl, hov, hcv, by simp, by simp⟩
  | cons w2 ws2 ih =>
    intro ov cv hov hcv hws
    have hw2 : Rect3 w2 H W 3 := hws w2 (List.mem_cons_self w2 ws2)
    have hnw := npWhere_eq_some (rect2_sumPos hw2) hov hH hW
    have hai := addInto_eq_some hcv hw2 hH hW
    have hstep : mosaicStep (ov, cv) w2
        = some (build2 H W (fun i j =>
            if get2 false (sumPos w2) i j then get2 false ov i j else false),
          build3 H W 3 (fun i j k =>
            get3 0 cv i j k + ((get3 0 w2 i j k : Nat) : ℚ))) := by
      simp [mosaicStep, hnw, hai]
    obtain ⟨ov2, cv2, hfold, hovr, hcvr, hovpt, hcvpt⟩ :=
      ih _ _ (rect2_build2 H W _) (rect3_build3 H W 3 _)
        (fun w3 hw3 => hws w3 (List.mem_cons_of_mem w2 hw3))
    refine ⟨ov2, cv2, ?_, hovr, hcvr, ?_, ?_⟩
    · rw [foldlM_option_cons, hstep, Option.some_bind, hfold]
    · intro i j hi hj
      rw [hovpt i j hi hj, get2_build2 _ _ _ _ hi hj, get2_sumPos hw2 hi hj]
      cases hd : decide (0 < (get2 ([] : List Nat) w2 i j).sum) with
      | false => simp [List.all_cons, hd]
      | true => simp [List.all_cons, hd]
    · intro i j k hi hj hk
      rw [hcvpt i j k hi hj hk, get3_build3 _ _ _ _ _ hi hj hk, List.map_cons,
        List.sum_cons]
      push_cast
      ring

theorem rect3_divAll {a : QImg} {d : ℚ} {h w c : Nat} (hr : Rect3 a h w c) :
    Rect3 (divAll a d) h w c := rect3_mapmapmap _ hr

theorem rect3_toUint8 {a : QImg} {h w c : Nat} (hr : Rect3 a h w c) :
    Rect3 (toUint8 a) h w c := rect3_mapmapmap _ hr

/-- Full characterization of a successful `integrate` on a sample whose mask
is 1024×1024 and whose warped images are 1024×1024×3. -/
theorem integrate_spec {warp : Img → Hom → Nat × Nat → Img}
    {s : MultiViewTemporalSample} {timestep : Nat} {m : BMask}
    {tp : List Img} {th : List Hom}
    (hm : s.mask = some m) (hmr : Rect2 m 1024 1024)
    (htp : s.photos.get? timestep = some tp)
    (hth : s.homographies.get? timestep = some th)
    (hw : ∀ pr ∈ tp.zip th, Rect3 (warp pr.1 pr.2 (shape2 pr.1)) 1024 1024 3) :
    ∃ out, integrate warp s timestep = some out
      ∧ Rect3 out 1024 1024 3
      ∧ ∀ i j k, i < 1024 → j < 1024 → k < 3 →
        get3 0 out i j k
          = if get2 false m i j = false
              ∧ ∀ pr ∈ tp.zip th,
                  0 < (get2 [] (warp pr.1 pr.2 (shape2 pr.1)) i j).sum
            then ((tp.zip th).map
                (fun pr => get3 0 (warp pr.1 pr.2 (shape2 pr.1)) i j k)).sum
                / 10 % 256
            else 0 := by
  have hws : ∀ w2 ∈ (tp.zip th).map (fun pr => warp pr.1 pr.2 (shape2 pr.1)),
      Rect3 w2 1024 1024 3 := by
    intro w2 hw2
    obtain ⟨pr, hpr, rfl⟩ := List.mem_map.mp hw2
    exact hw pr hpr
  obtain ⟨ov2, cv2, hfold, hovr, hcvr, hovpt, hcvpt⟩ :=
    mosaic_fold_char (by norm_num) (by norm_num)
      ((tp.zip th).map (fun pr => warp pr.1 pr.2 (shape2 pr.1)))
      (invertB m) (zeros3 1024 1024 3)
      (rect2_invertB hmr) (rect3_zeros3 1024 1024 3) hws
  have hma := maskAssign_eq_some (0 : ℚ) hcvr (rect2_invertB hovr)
    (by norm_num) (by norm_num)
  refine ⟨toUint8 (divAll (build3 1024 1024 3
      (fun i j k => if get2 false (invertB ov2) i j then 0
        else get3 0 cv2 i j k)) 10), ?_, ?_, ?_⟩
  · rw [integrate_eq, hm, Option.some_bind, htp, Option.some_bind, hth,
      Option.some_bind,
      ← foldlM_option_map mosaicStep
        (fun pr : Img × Hom => warp pr.1 pr.2 (shape2 pr.1)) (tp.zip th),
      hfold, Option.some_bind, hma, Option.some_bind]
  · exact rect3_toUint8 (rect3_divAll (rect3_build3 1024 1024 3 _))
  · intro i j k hi hj hk
    have hrd : Rect3 (build3 1024 1024 3
        (fun i j k => if get2 false (invertB ov2) i j then 0
          else get3 0 cv2 i j k)) 1024 1024 3 := rect3_build3 1024 1024 3 _
    rw [get3_toUint8 (rect3_divAll hrd) hi hj hk,
      get3_divAll hrd hi hj hk, get3_build3 _ _ _ _ _ hi hj hk]
    simp only [get2_invertB hovr hi hj, hovpt i j hi hj,
      get2_invertB hmr hi hj, hcvpt i j k hi hj hk, get3_zeros3 hi hj hk,
      zero_add]
    have h10 : (10 : ℚ) = ((10 : Nat) : ℚ) := by norm_num
    by_cases hcond : get2 false m i j = false
      ∧ ∀ pr ∈ tp.zip th,
          0 < (get2 [] (warp pr.1 pr.2 (shape2 pr.1)) i j).sum
    · rw [if_pos hcond]
      have hall : ((tp.zip th).map
          (fun pr => warp pr.1 pr.2 (shape2 pr.1))).all
            (fun w2 => decide (0 < (get2 ([] : List Nat) w2 i j).sum))
          = true := by
        apply List.all_eq_true.mpr
        intro w2 hw2
        obtain ⟨pr, hpr, rfl⟩ := List.mem_map.mp hw2
        exact decide_eq_true (hcond.2 pr hpr)
      rw [hcond.1, hall]
      simp only [Bool.not_false, Bool.true_and, Bool.not_true,
        Bool.false_eq_true, if_false]
      rw [List.map_map, h10, toNat_floor_div_nat]
      rfl
    · rw [if_neg hcond]
      cases hmv : get2 false m i j with
      | true =>
        simp only [hmv, Bool.not_true, Bool.false_and, Bool.not_false,
          if_true]
        norm_num
      | false =>
        have hallf : ((tp.zip th).map
            (fun pr => warp pr.1 pr.2 (shape2 pr.1))).all
              (fun w2 => decide (0 < (get2 ([] : List Nat) w2 i j).sum))
            = false := by
          rcases Bool.eq_false_or_eq_true (((tp.zip th).map
              (fun pr => warp pr.1 pr.2 (shape2 pr.1))).all
                (fun w2 => decide (0 < (get2 ([] : List Nat) w2 i j).sum)))
            with hb | hb
          · exfalso
            apply hcond
            refine ⟨hmv, ?_⟩
            intro pr hpr
            have := List.all_eq_true.mp hb (warp pr.1 pr.2 (shape2 pr.1))
              (List.mem_map_of_mem _ hpr)
            exact of_decide_eq_true this
          · exact hb
        simp only [hmv, hallf, Bool.not_false, Bool.true_and, if_true]
        norm_num

theorem rect2_replicate {α : Type} (h w : Nat) (x : α) :
    Rect2 (List.replicate h (List.replicate w x)) h w := by
  refine ⟨by simp, ?_⟩
  intro r hr
  rw [List.eq_of_mem_replicate hr]
  simp

theorem rect3_replicate {α : Type} (h w : Nat) (p : List α) :
    Rect3 (List.replicate h (List.replicate w p)) h w p.length := by
  refine ⟨by simp, ?_⟩
  intro r hr
  rw [List.eq_of_mem_replicate hr]
  refine ⟨by simp, ?_⟩
  intro q hq
  rw [List.eq_of_mem_replicate hq]

/-! ### Claim theorems on `integrate` -/

/-- C1: with a 1024×1024 mask and ten photos and homographies whose warped
images are 1024×1024×3, `integrate` keeps a canvas pixel only where the
pixel is valid in the inverse of the sample mask AND every one of the 10
warped images has a non-zero channel sum; pixels outside that final mask are
zero, every kept pixel is the channel sum over all 10 warped images divided
by 10 unconditionally, truncated to an 8-bit value. -/
theorem integrate_pixel_rule {warp : Img → Hom → Nat × Nat → Img}
    {s : MultiViewTemporalSample} {timestep : Nat} {m : BMask}
    {tp : List Img} {th : List Hom}
    (hm : s.mask = some m) (hmr : Rect2 m 1024 1024)
    (htp : s.photos.get? timestep = some tp)
    (hth : s.homographies.get? timestep = some th)
    (htpl : tp.length = 10) (hthl : th.length = 10)
    (hw : ∀ pr ∈ tp.zip th, Rect3 (warp pr.1 pr.2 (shape2 pr.1)) 1024 1024 3) :
    (tp.zip th).length = 10
    ∧ ∃ out, integrate warp s timestep = some out
      ∧ Rect3 out 1024 1024 3
      ∧ ∀ i j k, i < 1024 → j < 1024 → k < 3 →
        get3 0 out i j k
          = if get2 false m i j = false
              ∧ ∀ pr ∈ tp.zip th,
                  0 < (get2 [] (warp pr.1 pr.2 (shape2 pr.1)) i j).sum
            then ((tp.zip th).map
                (fun pr => get3 0 (warp pr.1 pr.2 (shape2 pr.1)) i j k)).sum
                / 10 % 256
            else 0 := by
  refine ⟨?_, integrate_spec hm hmr htp hth hw⟩
  rw [List.length_zip, htpl, hthl]
  exact Nat.min_self 10

/-- C2 (amended): when the warped images match the fixed 1024×1024×3 canvas
(as they do exactly when the input photos are 1024×1024, since the warp is
asked for the photo's own size), `integrate` returns a (1024, 1024, 3) array
of 8-bit values. -/
theorem integrate_shape_on_matching_inputs
    {warp : Img → Hom → Nat × Nat → Img}
    {s : MultiViewTemporalSample} {timestep : Nat} {m : BMask}
    {tp : List Img} {th : List Hom}
    (hm : s.mask = some m) (hmr : Rect2 m 1024 1024)
    (htp : s.photos.get? timestep = some tp)
    (hth : s.homographies.get? timestep = some th)
    (hw : ∀ pr ∈ tp.zip th, Rect3 (warp pr.1 pr.2 (shape2 pr.1)) 1024 1024 3) :
    ∃ out, integrate warp s timestep = some out
      ∧ Rect3 out 1024 1024 3
      ∧ ∀ i j k, i < 1024 → j < 1024 → k < 3 → get3 0 out i j k < 256 := by
  obtain ⟨out, h1, h2, h3⟩ := integrate_spec hm hmr htp hth hw
  refine ⟨out, h1, h2, ?_⟩
  intro i j k hi hj hk
  rw [h3 i j k hi hj hk]
  split
  · exact Nat.mod_lt _ (by norm_num)
  · norm_num

/-- C10: `integrate` on a sample loaded without a mask always fails
(`~self.mask.copy()` on `None`). -/
theorem integrate_requires_mask (warp : Img → Hom → Nat × Nat → Img)
    (s : MultiViewTemporalSample) (timestep : Nat) (hm : s.mask = none) :
    integrate warp s timestep = none := by
  rw [integrate_eq, hm]
  rfl

theorem integrate_pixel_rule_witness :
    (sampleBig.mask = some maskW
      ∧ Rect2 maskW 1024 1024
      ∧ sampleBig.photos.get? 0 = some (List.replicate 10 img113)
      ∧ sampleBig.homographies.get? 0 = some (List.replicate 10 hom3)
      ∧ (List.replicate 10 img113).length = 10
      ∧ (List.replicate 10 hom3).length = 10
      ∧ ∀ pr ∈ (List.replicate 10 img113).zip (List.replicate 10 hom3),
          Rect3 (warpW pr.1 pr.2 (shape2 pr.1)) 1024 1024 3)
    ∧ (((List.replicate 10 img113).zip (List.replicate 10 hom3)).length = 10
      ∧ ∃ out, integrate warpW sampleBig 0 = some out
        ∧ Rect3 out 1024 1024 3
        ∧ ∀ i j k, i < 1024 → j < 1024 → k < 3 →
          get3 0 out i j k
            = if get2 false maskW i j = false
                ∧ ∀ pr ∈ (List.replicate 10 img113).zip
                    (List.replicate 10 hom3),
                    0 < (get2 [] (warpW pr.1 pr.2 (shape2 pr.1)) i j).sum
              then (((List.replicate 10 img113).zip
                  (List.replicate 10 hom3)).map
                  (fun pr => get3 0 (warpW pr.1 pr.2 (shape2 pr.1)) i j k)).sum
                  / 10 % 256
              else 0) :=
  ⟨⟨rfl, rect2_replicate 1024 1024 false, rfl, rfl, rfl, rfl,
    fun _pr _hpr => rect3_replicate 1024 1024 [7, 7, 7]⟩,
   integrate_pixel_rule rfl (rect2_replicate 1024 1024 false) rfl rfl rfl rfl
    (fun _pr _hpr => rect3_replicate 1024 1024 [7, 7, 7])⟩

theorem integrate_shape_witness :
    (sampleBig.mask = some maskW
      ∧ Rect2 maskW 1024 1024
      ∧ sampleBig.photos.get? 0 = some (List.replicate 10 img113)
      ∧ sampleBig.homographies.get? 0 = some (List.replicate 10 hom3)
      ∧ ∀ pr ∈ (List.replicate 10 img113).zip (List.replicate 10 hom3),
          Rect3 (warpW pr.1 pr.2 (shape2 pr.1)) 1024 1024 3)
    ∧ (∃ out, integrate warpW sampleBig 0 = some out
      ∧ Rect3 out 1024 1024 3
      ∧ ∀ i j k, i < 1024 → j < 1024 → k < 3 → get3 0 out i j k < 256) :=
  ⟨⟨rfl, rect2_replicate 1024 1024 false, rfl, rfl,
    fun _pr _hpr => rect3_replicate 1024 1024 [7, 7, 7]⟩,
   integrate_shape_on_matching_inputs rfl (rect2_replicate 1024 1024 false)
    rfl rfl (fun _pr _hpr => rect3_replicate 1024 1024 [7, 7, 7])⟩

set_option maxRecDepth 100000 in
/-- C2 (counterexample): a sample loaded from 2×2 photos with a 2×2 mask is
a perfectly loadable sample, yet `integrate` does not return a
(1024, 1024, 3) image on it — the canvas accumulation fails on the shape
mismatch, exactly as numpy raises on `integrated_image += warped_image`. -/
theorem integrate_size_counterexample :
    loadSample dir22 "train" (some mask22) = some sample22
    ∧ integrate warpId sample22 0 = none := by
  constructor
  · rfl
  · decide

theorem integrate_requires_mask_witness :
    sampleNoMask.mask = none ∧ integrate warpId sampleNoMask 0 = none :=
  ⟨rfl, integrate_requires_mask warpId sampleNoMask 0 rfl⟩

/-! ### C7: masking is idempotent -/

/-- C7: boolean-mask zeroing is idempotent: whenever `photo[mask] = 0` is
defined (numpy accepts the shapes) and produces `p2`, applying the same mask
to `p2` is again defined and returns `p2` unchanged. -/
theorem maskAssign_idempotent {photo : Img} {m : BMask} {p2 : Img}
    (h : maskAssign 0 photo m = some p2) :
    maskAssign 0 p2 m = some p2 := by
  obtain ⟨H, W, C, hsh⟩ : ∃ H W C, shape3 photo = (H, W, C) := ⟨_, _, _, rfl⟩
  rw [maskAssign, hsh] at h
  dsimp only at h
  by_cases hcnd : shape2 m = (H, W)
  swap
  · rw [if_neg hcnd] at h
    exact Option.noConfusion h
  rw [if_pos hcnd] at h
  have hp2 : p2 = build3 H W C
      (fun i j k => if get2 false m i j then 0 else get3 0 photo i j k) :=
    (Option.some.inj h).symm
  subst hp2
  have hml : m.length = H := congrArg Prod.fst hcnd
  have himp : H = 0 → W = 0 := by
    intro h0
    have hm0 : m = [] := List.length_eq_zero.mp (by omega)
    have h2 : (shape2 m).2 = W := congrArg Prod.snd hcnd
    rw [hm0] at h2
    simpa [shape2] using h2.symm
  rcases Nat.eq_zero_or_pos H with hH0 | hHpos
  · have hW0 : W = 0 := himp hH0
    have hm0 : m = [] := List.length_eq_zero.mp (by omega)
    subst hH0 hW0 hm0
    rfl
  · rcases Nat.eq_zero_or_pos W with hW0 | hWpos
    · subst hW0
      have hhd : (build3 H 0 C
          (fun i j k => if get2 false m i j then 0
            else get3 0 photo i j k)).head? = some [] := by
        unfold build3
        cases hr : List.range H with
        | nil =>
          exfalso
          have : (List.range H).length = H := List.length_range H
          rw [hr] at this
          simp at this
          omega
        | cons a l => simp
      have hsh3 : shape3 (build3 H 0 C
          (fun i j k => if get2 false m i j then 0
            else get3 0 photo i j k)) = (H, 0, 0) := by
        unfold shape3
        rw [hhd]
        refine Prod.ext ?_ (Prod.ext ?_ ?_)
        · simp [build3]
        · simp
        · simp
      rw [maskAssign, hsh3]
      dsimp only
      rw [if_pos hcnd]
      exact rfl
    · have hsh3 : shape3 (build3 H W C
          (fun i j k => if get2 false m i j then 0
            else get3 0 photo i j k)) = (H, W, C) :=
        shape3_of_rect3 (rect3_build3 H W C _) hHpos hWpos
      rw [maskAssign, hsh3]
      dsimp only
      rw [if_pos hcnd]
      refine congrArg some (build3_congr ?_)
      intro i j k hi hj hk
      cases hm2 : get2 false m i j with
      | true => simp [hm2]
      | false => simp [hm2, get3_build3 _ _ _ _ _ hi hj hk]

theorem maskAssign_idempotent_witness :
    maskAssign 0 photo22 maskDiag = some photo22Masked
    ∧ maskAssign 0 photo22Masked maskDiag = some photo22Masked :=
  ⟨rfl, @maskAssign_idempotent photo22 maskDiag photo22Masked rfl⟩

/-! ### Claim theorems on `ImageDataset` -/

theorem init_eq (fs : FS) (data_path mode : String) (apply_mask : Bool) :
    ImageDataset.init fs data_path mode apply_mask
      = if lower mode ∈ (["train", "test", "validation"] : List String) then
          (if apply_mask then
              (fs.boolImage (pathJoin "data" "mask.png")).map
                (fun m => some (invertB m))
            else
              pure none).bind (fun mask =>
            (mapO (fun s => loadSample
                (fs.dirAt (pathJoin (pathJoin data_path (lower mode)) s))
                (lower mode) mask)
              ((fs.listdir (pathJoin data_path (lower mode))).filter
                (fun s => fs.isdir
                  (pathJoin (pathJoin data_path (lower mode)) s)))).bind
              (fun samples =>
                some { path := pathJoin data_path (lower mode)
                       samples := samples }))
        else none := by
  cases apply_mask with
  | false => rfl
  | true => rfl

/-- C6 (counterexample): `"TRAIN"` is none of the three recognized values,
yet construction passes the guard (and succeeds on an empty data folder),
because the mode is lower-cased before the assertion. -/
theorem mode_guard_counterexample :
    ("TRAIN" ∉ (["train", "test", "validation"] : List String))
    ∧ ImageDataset.init fsTriv "data" "TRAIN" false
        = some { path := "data/train", samples := [] } := by
  constructor
  · decide
  · decide

/-- C6 (amended): the constructor lower-cases the mode before the assertion:
construction fails for every mode string whose lower-casing is not one of
`train`/`test`/`validation`, and passes the guard exactly when the
lower-casing is one of those three. -/
theorem mode_guard_lowercase (mode : String) :
    (lower mode ∉ (["train", "test", "validation"] : List String) →
      ∀ (fs : FS) (data_path : String) (apply_mask : Bool),
        ImageDataset.init fs data_path mode apply_mask = none)
    ∧ (lower mode ∈ (["train", "test", "validation"] : List String) →
      ∀ data_path : String,
        ∃ d, ImageDataset.init fsTriv data_path mode false = some d) := by
  constructor
  · intro hnot fs dp am
    rw [init_eq, if_neg hnot]
  · intro hin dp
    rw [init_eq, if_pos hin]
    exact ⟨{ path := pathJoin dp (lower mode), samples := [] }, rfl⟩

theorem mode_guard_lowercase_witness :
    (lower "Train" ∈ (["train", "test", "validation"] : List String)
      ∧ ∃ d, ImageDataset.init fsTriv "data" "Train" false = some d)
    ∧ (lower "foo" ∉ (["train", "test", "validation"] : List String)
      ∧ ImageDataset.init fsTriv "data2" "foo" true = none) :=
  ⟨⟨by decide, (mode_guard_lowercase "Train").2 (by decide) "data"⟩,
   ⟨by decide, (mode_guard_lowercase "foo").1 (by decide) fsTriv "data2" true⟩⟩

/-- C4: the mask is not read relative to `data_path`.  With
`data_path = "d2"` and the mask file present at `d2/mask.png` (and nowhere
else) construction fails; with the file at the constant `data/mask.png` the
same call succeeds.  The code reads `os.path.join("data", "mask.png")`
regardless of `data_path`, contradicting its own docstring. -/
theorem mask_path_ignores_data_path :
    ImageDataset.init fsMaskElsewhere "d2" "train" true = none
    ∧ ImageDataset.init fsMaskAtData "d2" "train" true
        = some { path := "d2/train", samples := [] } := by
  constructor
  · decide
  · decide

/-- C8: a constructed dataset's length is the number of immediate
subdirectories of `<data_path>/<mode>` (non-directories filtered out), and
index `i` returns the sample loaded from the `i`-th such subdirectory. -/
theorem dataset_len_and_indexing {fs : FS} {data_path mode : String}
    {apply_mask : Bool} {d : ImageDataset}
    (h : ImageDataset.init fs data_path mode apply_mask = some d) :
    ∃ mask,
      d.len = ((fs.listdir (pathJoin data_path (lower mode))).filter
        (fun s2 => fs.isdir
          (pathJoin (pathJoin data_path (lower mode)) s2))).length
      ∧ ∀ i name,
          ((fs.listdir (pathJoin data_path (lower mode))).filter
            (fun s2 => fs.isdir
              (pathJoin (pathJoin data_path (lower mode)) s2))).get? i
            = some name →
          ∃ smp, loadSample
              (fs.dirAt (pathJoin (pathJoin data_path (lower mode)) name))
              (lower mode) mask = some smp
            ∧ d.getitem i = some smp := by
  rw [init_eq] at h
  by_cases hg : lower mode ∈ (["train", "test", "validation"] : List String)
  case neg => rw [if_neg hg] at h; cases h
  rw [if_pos hg] at h
  cases hmask : (if apply_mask then
      (fs.boolImage (pathJoin "data" "mask.png")).map
        (fun m => some (invertB m))
    else
      pure none) with
  | none => rw [hmask, Option.none_bind] at h; cases h
  | some mask =>
    rw [hmask, Option.some_bind] at h
    cases hsm : mapO (fun s => loadSample
        (fs.dirAt (pathJoin (pathJoin data_path (lower mode)) s))
        (lower mode) mask)
      ((fs.listdir (pathJoin data_path (lower mode))).filter
        (fun s => fs.isdir
          (pathJoin (pathJoin data_path (lower mode)) s))) with
    | none => rw [hsm, Option.none_bind] at h; cases h
    | some samples =>
      rw [hsm, Option.some_bind] at h
      have hd : d = { path := pathJoin data_path (lower mode)
                      samples := samples } := (Option.some.inj h).symm
      subst hd
      have hchar := mapO_char _ hsm
      refine ⟨mask, hchar.1, ?_⟩
      intro i name hname
      obtain ⟨smp, hload, hsget⟩ := hchar.2 i name hname
      exact ⟨smp, hload, hsget⟩

set_option maxRecDepth 10000 in
theorem dataset_len_and_indexing_witness :
    ImageDataset.init fsW8 "data" "train" false = some dW8
    ∧ ∃ mask,
      dW8.len = ((fsW8.listdir (pathJoin "data" (lower "train"))).filter
        (fun s2 => fsW8.isdir
          (pathJoin (pathJoin "data" (lower "train")) s2))).length
      ∧ ∀ i name,
          ((fsW8.listdir (pathJoin "data" (lower "train"))).filter
            (fun s2 => fsW8.isdir
              (pathJoin (pathJoin "data" (lower "train")) s2))).get? i
            = some name →
          ∃ smp, loadSample
              (fsW8.dirAt (pathJoin (pathJoin "data" (lower "train")) name))
              (lower "train") mask = some smp
            ∧ dW8.getitem i = some smp :=
  ⟨rfl, @dataset_len_and_indexing fsW8 "data" "train" false dW8 rfl⟩

end WiSAR

